import Mathlib

/-!
Verification of the `kt consume` command (`consume.go`): the offset-expression
parser, the partition/range-specification parser, the offset resolver, partition
discovery, and the per-partition consumption loop.

Strings from the Go source are modelled as `List Char`.  Machine integers
(`int64`, `int32`) are modelled as `Int` with explicit two's-complement wrapping
(`wrap64`, `wrap32`) at the operations where Go arithmetic can overflow.
-/

set_option autoImplicit false

namespace KtConsume

/-- `sarama.OffsetNewest` (`-1`). -/
def OffsetNewest : Int := -1

/-- `sarama.OffsetOldest` (`-2`). -/
def OffsetOldest : Int := -2

/-- `var offsetResume int64 = -3` from `consume.go`. -/
def offsetResume : Int := -3

/-- Largest signed 64-bit integer, `1<<63 - 1`. -/
def maxInt64 : Int := 9223372036854775807

/-- Smallest signed 64-bit integer, `-(1<<63)`. -/
def minInt64 : Int := -9223372036854775808

/-- `2^64`, the modulus of 64-bit two's-complement arithmetic. -/
def int64Mod : Int := 18446744073709551616

/-- Two's-complement wrap of an integer into the signed 64-bit range,
modelling Go `int64` overflow. -/
def wrap64 (x : Int) : Int := (x - minInt64) % int64Mod + minInt64

/-- Two's-complement wrap into the signed 32-bit range, modelling Go's
`int32(i)` conversion. -/
def wrap32 (x : Int) : Int := (x + 2147483648) % 4294967296 - 2147483648

/-- The `offset` struct of `consume.go`: `relative bool; start int64; diff int64`. -/
structure offset where
  relative : Bool
  start : Int
  diff : Int
deriving Repr, DecidableEq

/-- The `interval` struct of `consume.go`: a start and an end offset expression. -/
structure interval where
  start : offset
  «end» : offset
deriving Repr, DecidableEq

/-- Numeric value of a digit string (the base-10 reading done by
`strconv.ParseInt`/`strconv.Atoi` on an all-digit token). -/
def digitsVal (s : List Char) : Nat :=
  s.foldl (fun acc c => acc * 10 + (c.toNat - '0'.toNat)) 0

/-- `startsWith w s` holds when the literal word `w` is a prefix of `s`;
this models how Go's regexp engine matches a literal alternative at the
current position. -/
def startsWith : List Char → List Char → Bool
  | [], _ => true
  | _ :: _, [] => false
  | a :: w, b :: s => if a = b then startsWith w s else false

/-- The capture of regexp group `(oldest|newest|resume)?` at position 0 and the
remaining input.  Go's leftmost-first semantics try the alternatives in order
and prefer a present over an absent optional group. -/
def matchAnchor (s : List Char) : List Char × List Char :=
  if startsWith "oldest".data s then ("oldest".data, s.drop 6)
  else if startsWith "newest".data s then ("newest".data, s.drop 6)
  else if startsWith "resume".data s then ("resume".data, s.drop 6)
  else ([], s)

/-- The capture of regexp group `(-|\+)?` and the remaining input. -/
def matchSign (s : List Char) : List Char × List Char :=
  match s with
  | [] => ([], [])
  | c :: rest =>
    if c = '-' then (['-'], rest)
    else if c = '+' then (['+'], rest)
    else ([], c :: rest)

/-- `parseOffset` from `consume.go`.  The regexp
`(oldest|newest|resume)?(-|\+)?(\d+)?` can match the empty string, so its first
match always starts at position 0 of the token; the `len(matches) == 0 ||
len(matches[0]) < 4` guard in the source is dead code and is omitted here.
`strconv.ParseInt(intStr, 10, 64)` fails on a non-empty all-digit capture
exactly when its value exceeds `maxInt64`; on the empty capture it reports a
syntax error, which the source ignores (`len(intStr) > 0` is false), leaving
`result.start` at 0. -/
def parseOffset (str : List Char) : Except String offset :=
  let startStr := (matchAnchor str).1
  let rest1 := (matchAnchor str).2
  let qualifierStr := (matchSign rest1).1
  let rest2 := (matchSign rest1).2
  let intStr := rest2.takeWhile Char.isDigit
  if 0 < intStr.length ∧ maxInt64 < (digitsVal intStr : Int) then
    .error ("Invalid offset [" ++ String.mk str ++ "]")
  else
    let r0 : offset := { relative := false, start := (digitsVal intStr : Int), diff := 0 }
    let r1 : offset :=
      if 0 < qualifierStr.length then
        let a : offset := { relative := true, start := OffsetOldest, diff := r0.start }
        if qualifierStr = ['-'] then { a with start := OffsetNewest, diff := -a.diff }
        else a
      else r0
    let r2 : offset :=
      if startStr = "newest".data then { r1 with relative := true, start := OffsetNewest }
      else if startStr = "oldest".data then { r1 with relative := true, start := OffsetOldest }
      else if startStr = "resume".data then { r1 with relative := true, start := offsetResume }
      else r1
    .ok r2

/-- The digit capture (group 3) of the offset regexp's first match on a token. -/
def offsetDigits (s : List Char) : List Char :=
  ((matchSign (matchAnchor s).2).2).takeWhile Char.isDigit

/-- `strings.TrimSpace`: strip leading and trailing whitespace. -/
def trimSpace (s : List Char) : List Char :=
  ((s.dropWhile Char.isWhitespace).reverse.dropWhile Char.isWhitespace).reverse

/-- `strings.Split(str, ",")`. -/
def splitOnComma : List Char → List (List Char)
  | [] => [[]]
  | c :: rest =>
    if c = ',' then [] :: splitOnComma rest
    else
      match splitOnComma rest with
      | [] => [[c]]
      | seg :: segs => (c :: seg) :: segs

/-- The first (leftmost-first) match of the per-segment regexp
`(all|\d+)?=?([^:]+)?:?(.+)?` on a trimmed segment, returned as the three
captures plus the input left unconsumed by that first match.  All pieces are
optional and greedy, so the backtracking search never revisits a choice:
group 1 is the literal `all` if present, else the maximal leading digit run;
a following `=` is consumed if present; group 2 is the maximal run of
non-`:` characters; a following `:` is consumed if present; group 3 is the
maximal run of non-newline characters (`.` does not match a newline).
`FindAllStringSubmatch` yields exactly one match iff the first match consumes
the whole (trimmed) segment: the leftover can only start with a newline, from
which a further non-empty match always exists. -/
def matchSegment (s : List Char) : List Char × List Char × List Char × List Char :=
  let g1 := if startsWith "all".data s then "all".data else s.takeWhile Char.isDigit
  let r1 := if startsWith "all".data s then s.drop 3 else s.dropWhile Char.isDigit
  let r2 := if r1.head? = some '=' then r1.tail else r1
  let g2 := r2.takeWhile (· != ':')
  let r3 := r2.dropWhile (· != ':')
  let r4 := if r3.head? = some ':' then r3.tail else r3
  let g3 := r4.takeWhile (· != '\n')
  let rest := r4.dropWhile (· != '\n')
  (g1, g2, g3, rest)

/-- `strconv.Atoi` restricted to the token shapes `matchSegment`'s group 1 can
produce besides `all` (all-digit strings, possibly empty): it succeeds exactly
on a non-empty digit run whose value fits a signed 64-bit `int`. -/
def atoi (s : List Char) : Except String Int :=
  if s ≠ [] ∧ s.all Char.isDigit ∧ (digitsVal s : Int) ≤ maxInt64 then
    .ok (digitsVal s)
  else .error "invalid syntax"

/-- The `defaultInterval` of `parseOffsets`: start at the oldest offset,
end unbounded (`1<<63 - 1`). -/
def defaultInterval : interval :=
  { start := { relative := true, start := OffsetOldest, diff := 0 },
    «end» := { relative := false, start := maxInt64, diff := 0 } }

/-- The partition sub-field of a segment: `all` or the empty token denote the
wildcard `-1`; otherwise the token goes through `strconv.Atoi` and is
truncated to `int32`. -/
def parsePartitionTok (g1 : List Char) : Except String Int :=
  if g1 = "all".data ∨ g1 = [] then .ok (-1)
  else
    match atoi g1 with
    | .ok i => .ok (wrap32 i)
    | .error _ => .error ("Invalid partition [" ++ String.mk g1 ++ "]")

/-- A start/end sub-field of a segment: when the trimmed token is non-empty it
is parsed with `parseOffset`, and a *failed* parse silently keeps the default
(`if err == nil { start = o }` in the source); an absent token also keeps the
default. -/
def parseOffsetTokOr (tok : List Char) (dflt : offset) : offset :=
  if 0 < (trimSpace tok).length then
    match parseOffset (trimSpace tok) with
    | .ok o => o
    | .error _ => dflt
  else dflt

/-- The body of the `parseOffsets` loop for one comma-separated segment:
trim, match the segment regexp (a non-unique match is the
`Invalid partition info` error), parse the partition token, and parse the
start/end offset tokens with silent fallback to the defaults. -/
def parseSegment (partitionInfo : List Char) : Except String (Int × interval) :=
  let trimmed := trimSpace partitionInfo
  let g1 := (matchSegment trimmed).1
  let g2 := (matchSegment trimmed).2.1
  let g3 := (matchSegment trimmed).2.2.1
  let rest := (matchSegment trimmed).2.2.2
  if rest ≠ [] then
    .error ("Invalid partition info [" ++ String.mk partitionInfo ++ "]")
  else
    match parsePartitionTok g1 with
    | .error e => .error e
    | .ok partition =>
      .ok (partition, ⟨parseOffsetTokOr g2 defaultInterval.start,
                       parseOffsetTokOr g3 defaultInterval.«end»⟩)

/-- Insert-or-replace on the association-list model of Go's
`map[int32]interval` (`result[partition] = ...`). -/
def mapUpdate (m : List (Int × interval)) (k : Int) (v : interval) : List (Int × interval) :=
  if m.any (fun kv => kv.1 == k) then
    m.map (fun kv => if kv.1 = k then (k, v) else kv)
  else m ++ [(k, v)]

/-- `parseOffsets` from `consume.go`.  The empty specification yields the
single wildcard entry; otherwise each comma-separated segment is processed by
`parseSegment` and written into the map (the Go version also returns the
partially built map alongside an error, which every caller discards). -/
def parseOffsets (str : List Char) : Except String (List (Int × interval)) :=
  if str.length = 0 then .ok [(-1, defaultInterval)]
  else
    (splitOnComma str).foldlM
      (fun result partitionInfo =>
        match parseSegment partitionInfo with
        | .error e => .error e
        | .ok pi => .ok (mapUpdate result pi.1 pi.2))
      []

/-- Key membership in the association-list model of the range map
(Go's `_, ok := m[k]`). -/
def containsKey (m : List (Int × interval)) (k : Int) : Bool :=
  m.any (fun kv => kv.1 == k)

/-- `findPartitions` from `consume.go`: given the broker-reported partition
list, return it unchanged when the range map has the wildcard key `-1`, else
collect (in broker order) the partitions explicitly keyed in the map. -/
def findPartitions (all : List Int) (offsets : List (Int × interval)) : List Int :=
  if containsKey offsets (-1) then all
  else all.foldl (fun res p => if containsKey offsets p then res ++ [p] else res) []

/-- The collaborators `resolveOffset` consults: `client.GetOffset` for the
topic (partition and `whichTime` arguments), the configured consumer group,
and `PartitionOffsetManager.NextOffset` (whose error return the source
discards). -/
structure ConsumeEnv where
  getOffset : Int → Int → Except String Int
  group : String
  nextOffset : Int → Int

/-- `resolveOffset` from `consume.go`. -/
def resolveOffset (env : ConsumeEnv) (o : offset) (partition : Int) : Except String Int :=
  if !o.relative then .ok o.start
  else if o.start = OffsetNewest ∨ o.start = OffsetOldest then
    match env.getOffset partition o.start with
    | .error e => .error e
    | .ok res =>
      let res1 := if o.start = OffsetNewest then wrap64 (res - 1) else res
      .ok (wrap64 (res1 + o.diff))
  else if o.start = offsetResume then
    if env.group = "" then .error "cannot resume without -group argument"
    else .ok (env.nextOffset partition)
  else .ok (wrap64 (o.start + o.diff))

/-- The three channel events the `select` in `partitionLoop` can receive:
the idle-timeout timer firing, a consumer error, the messages channel closing,
or a message carrying a record at some offset. -/
inductive Event where
  | timeout
  | consumeError
  | closed
  | message (off : Int)
deriving Repr, DecidableEq

/-- The externally visible actions of one `partitionLoop` run: a record handed
to the output channel and acknowledged (`out <- ctx; <-ctx.done`), a checkpoint
write (`pom.MarkOffset`), and the three logged termination reasons. -/
inductive Action where
  | emitted (off : Int)
  | checkpointed (off : Int)
  | timedOut
  | errored
  | closedChan
deriving Repr, DecidableEq

/-- The actions of one loop iteration's message case: emit the record, then,
when a consumer group is configured, mark `offset+1`. -/
def emitBlock (group : String) (off : Int) : List Action :=
  .emitted off :: (if group = "" then [] else [.checkpointed (wrap64 (off + 1))])

/-- `partitionLoop` from `consume.go`, as a function of the sequence of events
its channels deliver.  Returns the trace of actions together with the events
left unconsumed when the loop returns (an empty schedule models a worker still
blocked in `select`).  On a message: build the record, send it and wait for the
printer's acknowledgment, mark the checkpoint when a group is configured, and
return when `end > 0 && msg.Offset >= end`. -/
def partitionLoop (group : String) («end» : Int) : List Event → List Action × List Event
  | [] => ([], [])
  | .timeout :: rest => ([.timedOut], rest)
  | .consumeError :: rest => ([.errored], rest)
  | .closed :: rest => ([.closedChan], rest)
  | .message off :: rest =>
    if 0 < «end» ∧ «end» ≤ off then (emitBlock group off, rest)
    else
      let r := partitionLoop group «end» rest
      (emitBlock group off ++ r.1, r.2)

/-- Checks that in a trace every emission is immediately followed by the
checkpoint write for `offset + 1` and every checkpoint write is immediately
preceded by the emission it belongs to. -/
def cpPairedOk : List Action → Bool
  | [] => true
  | .emitted o :: tail =>
    match tail with
    | .checkpointed v :: tail2 => v == o + 1 && cpPairedOk tail2
    | _ => false
  | .checkpointed _ :: _ => false
  | _ :: tail => cpPairedOk tail

/-- Every message in the schedule carries a valid broker offset: non-negative
and small enough that `offset + 1` does not overflow `int64`. -/
def validOffsets (sched : List Event) : Bool :=
  sched.all fun e =>
    match e with
    | .message o => decide (0 ≤ o ∧ o + 1 ≤ maxInt64)
    | _ => true

/-- Every event in the list is a message with offset strictly below `e`. -/
def msgsBelow (e : Int) (events : List Event) : Bool :=
  events.all fun ev =>
    match ev with
    | .message o => decide (o < e)
    | _ => false

/-- A segment whose regexp match consumes the whole trimmed text and whose
partition token `strconv.Atoi` can handle: `all`, empty, or a non-empty digit
run fitting a 64-bit `int`.  Under this condition `parseSegment` cannot
fail. -/
def segWellFormed (seg : List Char) : Bool :=
  let m := matchSegment (trimSpace seg)
  m.2.2.2 == [] &&
    (m.1 == "all".data || m.1 == [] ||
      (m.1.all Char.isDigit && m.1 != [] && decide ((digitsVal m.1 : Int) ≤ maxInt64)))

/-- Full-token membership in the offset grammar `anchorWord? sign? digits?` of
the specification: the token is an optional anchor word, then an optional
sign, then optional digits, with nothing left over.  Modelled from the spec's
grammar (§4.1) to compare with what `parseOffset` actually accepts. -/
def matchesOffsetShape (s : List Char) : Bool :=
  ((matchSign (matchAnchor s).2).2).dropWhile Char.isDigit == []

example : parseOffset "10".data = .ok ⟨false, 10, 0⟩ := by rfl
example : parseOffset "oldest+10".data = .ok ⟨true, OffsetOldest, 10⟩ := by rfl
example : parseOffset "newest-10".data = .ok ⟨true, OffsetNewest, -10⟩ := by rfl
example : parseOffset "+10".data = .ok ⟨true, OffsetOldest, 10⟩ := by rfl
example : parseOffset "-10".data = .ok ⟨true, OffsetNewest, -10⟩ := by rfl
example : parseOffset "resume".data = .ok ⟨true, offsetResume, 0⟩ := by rfl
example : parseOffset "xyz".data = .ok ⟨false, 0, 0⟩ := by rfl
example : parseOffset "".data = .ok ⟨false, 0, 0⟩ := by rfl
example : (parseOffset "99999999999999999999".data).isOk = false := by rfl

example : parseOffsets "".data = .ok [(-1, defaultInterval)] := by rfl
example : parseOffsets "0=10:20".data =
    .ok [(0, ⟨⟨false, 10, 0⟩, ⟨false, 20, 0⟩⟩)] := by rfl
example : parseOffsets "all=1:10,2=5:10".data =
    .ok [(-1, ⟨⟨false, 1, 0⟩, ⟨false, 10, 0⟩⟩), (2, ⟨⟨false, 5, 0⟩, ⟨false, 10, 0⟩⟩)] := by rfl
example : parseOffsets "0=4:,2=1:10,6".data =
    .ok [(0, ⟨⟨false, 4, 0⟩, defaultInterval.«end»⟩),
         (2, ⟨⟨false, 1, 0⟩, ⟨false, 10, 0⟩⟩),
         (6, defaultInterval)] := by rfl
example : parseOffsets "newest:".data =
    .ok [(-1, ⟨⟨true, OffsetNewest, 0⟩, defaultInterval.«end»⟩)] := by rfl
example : parseOffsets "0=99999999999999999999:20".data =
    .ok [(0, ⟨defaultInterval.start, ⟨false, 20, 0⟩⟩)] := by rfl

example : findPartitions [0, 1, 2] [(-1, defaultInterval)] = [0, 1, 2] := by rfl
example : findPartitions [0, 1, 2] [(2, defaultInterval), (5, defaultInterval)] = [2] := by rfl

/-- A concrete collaborator environment used by the witness theorems:
the boundary query reports next-insert offset 100 for `Newest` and oldest
offset 5, the group is `"g"`, and the stored checkpoint is 37. -/
def sampleEnv : ConsumeEnv :=
  { getOffset := fun _ which => if which = OffsetNewest then .ok 100 else .ok 5,
    group := "g",
    nextOffset := fun _ => 37 }

example : resolveOffset sampleEnv ⟨true, OffsetNewest, 0⟩ 0 = .ok 99 := by rfl
example : resolveOffset sampleEnv ⟨true, OffsetOldest, 3⟩ 0 = .ok 8 := by rfl
example : resolveOffset sampleEnv ⟨true, offsetResume, 7⟩ 0 = .ok 37 := by rfl
example : resolveOffset sampleEnv ⟨false, 42, 9⟩ 0 = .ok 42 := by rfl
example : resolveOffset { sampleEnv with group := "" } ⟨true, offsetResume, 0⟩ 0 =
    .error "cannot resume without -group argument" := by rfl

example : partitionLoop "g" 20 [.message 19, .message 20, .message 21] =
    ([.emitted 19, .checkpointed 20, .emitted 20, .checkpointed 21], [.message 21]) := by rfl
example : partitionLoop "" 0 [.message 0, .message 1] =
    ([.emitted 0, .emitted 1], []) := by rfl
example : partitionLoop "" 5 [.message 3, .timeout, .message 9] =
    ([.emitted 3, .timedOut], [.message 9]) := by rfl

theorem wrap64_eq_self (x : Int) (h1 : minInt64 ≤ x) (h2 : x ≤ maxInt64) :
    wrap64 x = x := by
  simp only [minInt64, maxInt64] at h1 h2
  unfold wrap64 minInt64 int64Mod
  rw [Int.emod_eq_of_lt (by omega) (by omega)]
  omega

/-- C4: resolving a `Resume` expression fails (with the configuration error
naming `-group`) exactly when no consumer group is configured; with a group it
returns the stored next-offset checkpoint unmodified, ignoring the diff. -/
theorem resolveOffset_resume (env : ConsumeEnv) (d p : Int) :
    (env.group = "" →
      resolveOffset env ⟨true, offsetResume, d⟩ p =
        .error "cannot resume without -group argument") ∧
    (env.group ≠ "" →
      resolveOffset env ⟨true, offsetResume, d⟩ p = .ok (env.nextOffset p)) := by
  have key : resolveOffset env ⟨true, offsetResume, d⟩ p =
      if env.group = "" then .error "cannot resume without -group argument"
      else .ok (env.nextOffset p) := rfl
  constructor <;> intro hg <;> rw [key]
  · rw [if_pos hg]
  · rw [if_neg hg]

/-- C4 witness: with group `"g"` configured, `resume+5` resolves to the stored
checkpoint 37, ignoring the diff. -/
theorem resolveOffset_resume_witness :
    sampleEnv.group ≠ "" ∧
    resolveOffset sampleEnv ⟨true, offsetResume, 5⟩ 0 = .ok 37 :=
  ⟨by decide, (resolveOffset_resume sampleEnv 5 0).2 (by decide)⟩

/-- C5: for a relative expression anchored at `Newest` with diff `d`, the
resolver returns `B - 1 + d` where `B` is the boundary (one-past-the-last)
offset reported by `GetOffset`; anchored at `Oldest` it returns the reported
boundary plus the diff (bounds keep the `int64` arithmetic from wrapping). -/
theorem resolveOffset_newest_oldest (env : ConsumeEnv) (p dN dO B C : Int)
    (hN : env.getOffset p OffsetNewest = .ok B)
    (hO : env.getOffset p OffsetOldest = .ok C)
    (hB0 : 0 ≤ B) (hBhi : B ≤ maxInt64)
    (hNlo : minInt64 ≤ B - 1 + dN) (hNhi : B - 1 + dN ≤ maxInt64)
    (hOlo : minInt64 ≤ C + dO) (hOhi : C + dO ≤ maxInt64) :
    resolveOffset env ⟨true, OffsetNewest, dN⟩ p = .ok (B - 1 + dN) ∧
    resolveOffset env ⟨true, OffsetOldest, dO⟩ p = .ok (C + dO) := by
  have e1 : wrap64 (B - 1) = B - 1 := by
    apply wrap64_eq_self <;> simp only [minInt64, maxInt64] at hBhi ⊢ <;> omega
  have e2 : wrap64 (B - 1 + dN) = B - 1 + dN := wrap64_eq_self _ hNlo hNhi
  have e3 : wrap64 (C + dO) = C + dO := wrap64_eq_self _ hOlo hOhi
  constructor
  · have key : resolveOffset env ⟨true, OffsetNewest, dN⟩ p =
        match env.getOffset p OffsetNewest with
        | .error e => .error e
        | .ok res => .ok (wrap64 (wrap64 (res - 1) + dN)) := rfl
    rw [key, hN]
    show Except.ok (wrap64 (wrap64 (B - 1) + dN)) = Except.ok (B - 1 + dN)
    rw [e1, e2]
  · have key : resolveOffset env ⟨true, OffsetOldest, dO⟩ p =
        match env.getOffset p OffsetOldest with
        | .error e => .error e
        | .ok res => .ok (wrap64 (res + dO)) := rfl
    rw [key, hO]
    show Except.ok (wrap64 (C + dO)) = Except.ok (C + dO)
    rw [e3]

/-- C5 witness: against a boundary query reporting next-insert offset 100,
`newest` with diff 0 resolves to 99 and `oldest` (boundary 5) with diff 3
resolves to 8. -/
theorem resolveOffset_newest_oldest_witness :
    sampleEnv.getOffset 0 OffsetNewest = .ok 100 ∧
    resolveOffset sampleEnv ⟨true, OffsetNewest, 0⟩ 0 = .ok 99 ∧
    resolveOffset sampleEnv ⟨true, OffsetOldest, 3⟩ 0 = .ok 8 := by
  have h := resolveOffset_newest_oldest sampleEnv 0 0 3 100 5 (by rfl) (by rfl)
    (by decide) (by decide) (by decide) (by decide) (by decide) (by decide)
  exact ⟨by rfl, h.1, h.2⟩

theorem foldl_append_eq_filter (m : List (Int × interval)) (l acc : List Int) :
    l.foldl (fun res p => if containsKey m p then res ++ [p] else res) acc
      = acc ++ l.filter (fun p => containsKey m p) := by
  induction l generalizing acc with
  | nil => simp
  | cons p l ih =>
    by_cases hp : containsKey m p = true
    · rw [List.foldl_cons, if_pos hp, ih, List.filter_cons_of_pos hp]
      simp
    · rw [List.foldl_cons, if_neg (by simp [hp]), ih,
        List.filter_cons_of_neg (by simp [hp])]

/-- C7: when the range map contains the wildcard key `-1`, partition discovery
returns the broker-reported list unchanged; otherwise it returns exactly the
broker-reported partitions explicitly keyed in the map, in broker order. -/
theorem findPartitions_spec (all : List Int) (m : List (Int × interval)) :
    (containsKey m (-1) = true → findPartitions all m = all) ∧
    (containsKey m (-1) = false →
      findPartitions all m = all.filter (fun p => containsKey m p)) := by
  constructor <;> intro h <;> unfold findPartitions <;> rw [h]
  · rw [if_pos rfl]
  · rw [if_neg (by simp), foldl_append_eq_filter, List.nil_append]

/-- C7 witness: a map keying only partition 2 (no wildcard) selects exactly
partition 2 from the broker-reported list `[0, 1, 2]`. -/
theorem findPartitions_spec_witness :
    containsKey [((2 : Int), defaultInterval)] (-1) = false ∧
    findPartitions [0, 1, 2] [(2, defaultInterval)] = [2] := by
  refine ⟨by decide, ?_⟩
  rw [(findPartitions_spec [0, 1, 2] [(2, defaultInterval)]).2 (by decide)]
  decide

/-- C10: every offset expression `parseOffset` returns with `relative = true`
has one of the three reserved sentinels (`OffsetNewest`, `OffsetOldest`, or
`offsetResume`) in its anchor field, so the `start + diff` fallback of
`resolveOffset` is unreachable for parser-produced relative expressions. -/
theorem parseOffset_relative_start_sentinel (s : List Char) (o : offset)
    (h : parseOffset s = .ok o) (hrel : o.relative = true) :
    o.start = OffsetNewest ∨ o.start = OffsetOldest ∨ o.start = offsetResume := by
  simp only [parseOffset] at h
  split at h
  · exact absurd h (by simp)
  · split_ifs at h <;> (injection h with h2) <;> subst h2 <;> simp_all

/-- C10 witness: `"resume"` parses to a relative expression and its anchor is
one of the sentinels. -/
theorem parseOffset_relative_start_sentinel_witness :
    parseOffset "resume".data = .ok ⟨true, offsetResume, 0⟩ ∧
    ((⟨true, offsetResume, 0⟩ : offset).start = OffsetNewest ∨
      (⟨true, offsetResume, 0⟩ : offset).start = OffsetOldest ∨
      (⟨true, offsetResume, 0⟩ : offset).start = offsetResume) :=
  ⟨by rfl, parseOffset_relative_start_sentinel "resume".data ⟨true, offsetResume, 0⟩ (by rfl) rfl⟩

/-- C1: with checkpointing enabled (non-empty group) and valid broker offsets,
the action trace of `partitionLoop` pairs every emission immediately with the
checkpoint write `offset + 1` — the write happens after the output sequencer's
acknowledgment (an `emitted` action is the completed send-and-await-ack pair)
and before the worker waits on its channels again, and no checkpoint write
occurs except immediately after the emission it belongs to. -/
theorem partitionLoop_checkpoint_pairing (group : String) (e : Int)
    (sched : List Event) (hg : group ≠ "") (hv : validOffsets sched = true) :
    cpPairedOk (partitionLoop group e sched).1 = true := by
  induction sched with
  | nil => rfl
  | cons ev rest ih =>
    simp only [validOffsets, List.all_cons, Bool.and_eq_true] at hv
    have hvrest : validOffsets rest = true := by simpa [validOffsets] using hv.2
    cases ev with
    | timeout => rfl
    | consumeError => rfl
    | closed => rfl
    | message off =>
      have hb : 0 ≤ off ∧ off + 1 ≤ maxInt64 := of_decide_eq_true hv.1
      have hw : wrap64 (off + 1) = off + 1 := by
        apply wrap64_eq_self
        · simp only [minInt64]; omega
        · exact hb.2
      by_cases hc : 0 < e ∧ e ≤ off
      · simp only [partitionLoop, if_pos hc]
        simp [emitBlock, hg, hw, cpPairedOk]
      · simp only [partitionLoop, if_neg hc]
        simp only [emitBlock, if_neg hg]
        show cpPairedOk (.emitted off :: .checkpointed (wrap64 (off + 1)) ::
          (partitionLoop group e rest).1) = true
        rw [hw]
        simp only [cpPairedOk]
        rw [ih hvrest]
        simp

/-- C1 witness: a two-record schedule with group `"g"`: the trace pairs each
emission with its `offset + 1` checkpoint. -/
theorem partitionLoop_checkpoint_pairing_witness :
    (("g" : String) ≠ "" ∧ validOffsets [.message 2, .message 3, .timeout] = true) ∧
    cpPairedOk (partitionLoop "g" 0 [.message 2, .message 3, .timeout]).1 = true :=
  ⟨⟨by decide, by decide⟩,
   partitionLoop_checkpoint_pairing "g" 0 [.message 2, .message 3, .timeout]
     (by decide) (by decide)⟩

/-- C2 counterexample: the loop's cutoff test is `end > 0 && offset >= end`,
not a comparison with the unbounded sentinel.  With the configured end bound 0
— which is not the sentinel `maxInt64` — the worker emits the record at offset
0 (an offset `>= end`) and then still consumes and emits the record at offset 1
instead of terminating, leaving no event unconsumed. -/
theorem partitionLoop_end_zero_cex :
    (0 : Int) ≠ maxInt64 ∧
    partitionLoop "" 0 [.message 0, .message 1] = ([.emitted 0, .emitted 1], []) :=
  ⟨by decide, rfl⟩

/-- C2 (amended): for a *positive* configured end bound, after any prefix of
records below the bound, the worker terminates immediately after emitting the
first record with `offset >= end` (the trace ends with that record's
emit/checkpoint block) and never consumes any later event: the remainder of
the schedule is returned untouched. -/
theorem partitionLoop_end_cutoff (group : String) (e : Int) (pre post : List Event)
    (off : Int) (he : 0 < e) (hpre : msgsBelow e pre = true) (hoff : e ≤ off) :
    ∃ t, partitionLoop group e (pre ++ .message off :: post) =
      (t ++ emitBlock group off, post) := by
  induction pre with
  | nil =>
    refine ⟨[], ?_⟩
    simp only [List.nil_append, partitionLoop, if_pos (And.intro he hoff)]
  | cons ev pre ih =>
    simp only [msgsBelow, List.all_cons, Bool.and_eq_true] at hpre
    cases ev with
    | timeout => exact Bool.noConfusion hpre.1
    | consumeError => exact Bool.noConfusion hpre.1
    | closed => exact Bool.noConfusion hpre.1
    | message o =>
      have ho : o < e := of_decide_eq_true hpre.1
      obtain ⟨t, ht⟩ := ih (by simpa [msgsBelow] using hpre.2)
      refine ⟨emitBlock group o ++ t, ?_⟩
      simp only [List.cons_append, partitionLoop,
        if_neg (by omega : ¬(0 < e ∧ e ≤ o)), List.append_eq]
      rw [ht]
      simp [List.append_assoc]

/-- C2 witness (for the amended claim): with end bound 20, after a record at
offset 19 the worker emits the record at offset 20 and terminates without
consuming the queued record at offset 21. -/
theorem partitionLoop_end_cutoff_witness :
    ((0 : Int) < 20 ∧ msgsBelow 20 [.message 19] = true ∧ (20 : Int) ≤ 20) ∧
    ∃ t, partitionLoop "g" 20 ([.message 19] ++ .message 20 :: [.message 21]) =
      (t ++ emitBlock "g" 20, [.message 21]) :=
  ⟨⟨by decide, by decide, by decide⟩,
   partitionLoop_end_cutoff "g" 20 [.message 19] [.message 21] 20
     (by decide) (by decide) (by decide)⟩

theorem startsWith_cons_of_ne (a b : Char) (w s : List Char) (h : a ≠ b) :
    startsWith (a :: w) (b :: s) = false := by
  unfold startsWith
  rw [if_neg h]

theorem isDigit_ne (c w : Char) (hc : c.isDigit = true) (hw : w.isDigit = false) :
    c ≠ w := fun h => by rw [h, hw] at hc; exact Bool.noConfusion hc

theorem takeWhile_all_eq_self (p : Char → Bool) (l : List Char)
    (h : ∀ c ∈ l, p c = true) : l.takeWhile p = l := by
  induction l with
  | nil => rfl
  | cons a l ih =>
    simp [List.takeWhile_cons, h a (List.mem_cons_self a l),
      ih fun c hc => h c (List.mem_cons_of_mem a hc)]

/-- C3 counterexample: `"xyz"` is not of the grammar shape
`anchorWord? sign? digits?` (nothing of it can be consumed by the pattern, so
a full-token match fails), yet `parseOffset` returns the zero absolute offset
instead of a parse error: the regexp's first match is the empty match at
position 0, so the shape can never fail. -/
theorem parseOffset_shape_cex :
    matchesOffsetShape "xyz".data = false ∧
    parseOffset "xyz".data = .ok ⟨false, 0, 0⟩ :=
  ⟨by rfl, by rfl⟩

/-- C3 (amended): `parseOffset` rejects a token if and only if the digit
capture of the regexp's first match is non-empty and its value exceeds the
signed 64-bit range; the parse error identifies the offending token.  Tokens
that do not match the grammar shape as a whole (e.g. arbitrary text) are *not*
errors: only their matching prefix — possibly empty — is consumed. -/
theorem parseOffset_error_iff (s : List Char) :
    parseOffset s = .error ("Invalid offset [" ++ String.mk s ++ "]") ↔
      (offsetDigits s ≠ [] ∧ maxInt64 < (digitsVal (offsetDigits s) : Int)) := by
  simp only [parseOffset, offsetDigits]
  split
  case isTrue h =>
    exact iff_of_true rfl ⟨List.ne_nil_of_length_pos h.1, h.2⟩
  case isFalse h =>
    refine iff_of_false (by simp) fun hx => h ?_
    exact ⟨List.length_pos.mpr hx.1, hx.2⟩

/-- C3 witness (for the amended claim): a 20-digit token overflows `int64` and
is reported as an invalid offset naming the token. -/
theorem parseOffset_error_iff_witness :
    parseOffset "99999999999999999999".data =
      .error ("Invalid offset [" ++ String.mk "99999999999999999999".data ++ "]") :=
  (parseOffset_error_iff "99999999999999999999".data).mpr (by decide)

/-- C8: a non-empty all-digit token whose value fits a signed 64-bit integer
parses to the non-relative absolute offset of that value. -/
theorem parseOffset_digits_only (s : List Char) (hne : s ≠ [])
    (hdig : ∀ c ∈ s, c.isDigit = true)
    (hfit : (digitsVal s : Int) ≤ maxInt64) :
    parseOffset s = .ok { relative := false, start := (digitsVal s : Int), diff := 0 } := by
  obtain ⟨c, t, rfl⟩ := List.exists_cons_of_ne_nil hne
  have hc : c.isDigit = true := hdig c (List.mem_cons_self c t)
  have h1 : startsWith "oldest".data (c :: t) = false := by
    rw [show "oldest".data = 'o' :: "ldest".data from rfl]
    exact startsWith_cons_of_ne _ _ _ _ (isDigit_ne c 'o' hc (by decide)).symm
  have h2 : startsWith "newest".data (c :: t) = false := by
    rw [show "newest".data = 'n' :: "ewest".data from rfl]
    exact startsWith_cons_of_ne _ _ _ _ (isDigit_ne c 'n' hc (by decide)).symm
  have h3 : startsWith "resume".data (c :: t) = false := by
    rw [show "resume".data = 'r' :: "esume".data from rfl]
    exact startsWith_cons_of_ne _ _ _ _ (isDigit_ne c 'r' hc (by decide)).symm
  have hanchor : matchAnchor (c :: t) = ([], c :: t) := by
    simp [matchAnchor, h1, h2, h3]
  have hsign : matchSign (c :: t) = ([], c :: t) := by
    simp only [matchSign]
    rw [if_neg (isDigit_ne c '-' hc (by decide)),
      if_neg (isDigit_ne c '+' hc (by decide))]
  have htake : (c :: t).takeWhile Char.isDigit = c :: t :=
    takeWhile_all_eq_self _ _ hdig
  have hw1 : ¬(([] : List Char) = "newest".data) := by decide
  have hw2 : ¬(([] : List Char) = "oldest".data) := by decide
  have hw3 : ¬(([] : List Char) = "resume".data) := by decide
  have hcond : ¬(0 < (c :: t).length ∧ maxInt64 < (digitsVal (c :: t) : Int)) :=
    fun hx => absurd hx.2 (not_lt.mpr hfit)
  simp [parseOffset, hanchor, hsign, htake, hcond, hw1, hw2, hw3, hfit]

/-- C8 witness: `"42"` parses to the non-relative absolute offset 42. -/
theorem parseOffset_digits_only_witness :
    ("42".data ≠ [] ∧ (digitsVal "42".data : Int) ≤ maxInt64) ∧
    parseOffset "42".data = .ok ⟨false, 42, 0⟩ :=
  ⟨⟨by decide, by decide⟩,
   parseOffset_digits_only "42".data (by decide) (by decide) (by decide)⟩

/-- C9: for a digit string `N` in 64-bit range, the bare-sign tokens `+N` and
`-N` parse to the same expressions as the anchored forms `oldest+N` and
`newest-N`: relative with anchor `Oldest` and diff `+N`, and relative with
anchor `Newest` and diff `-N`, respectively. -/
theorem parseOffset_bare_sign_equiv (d : List Char)
    (hdig : ∀ c ∈ d, c.isDigit = true)
    (hfit : (digitsVal d : Int) ≤ maxInt64) :
    parseOffset ('+' :: d) = .ok ⟨true, OffsetOldest, (digitsVal d : Int)⟩ ∧
    parseOffset ("oldest".data ++ '+' :: d) = .ok ⟨true, OffsetOldest, (digitsVal d : Int)⟩ ∧
    parseOffset ('-' :: d) = .ok ⟨true, OffsetNewest, -(digitsVal d : Int)⟩ ∧
    parseOffset ("newest".data ++ '-' :: d) = .ok ⟨true, OffsetNewest, -(digitsVal d : Int)⟩ := by
  have htake : d.takeWhile Char.isDigit = d := takeWhile_all_eq_self _ _ hdig
  have hcond : ¬(0 < d.length ∧ maxInt64 < (digitsVal d : Int)) :=
    fun hx => absurd hx.2 (not_lt.mpr hfit)
  refine ⟨?_, ?_, ?_, ?_⟩
  · have key : parseOffset ('+' :: d) =
        if 0 < (d.takeWhile Char.isDigit).length ∧
            maxInt64 < (digitsVal (d.takeWhile Char.isDigit) : Int) then
          .error ("Invalid offset [" ++ String.mk ('+' :: d) ++ "]")
        else .ok ⟨true, OffsetOldest, (digitsVal (d.takeWhile Char.isDigit) : Int)⟩ := rfl
    rw [key, htake, if_neg hcond]
  · have key : parseOffset ("oldest".data ++ '+' :: d) =
        if 0 < (d.takeWhile Char.isDigit).length ∧
            maxInt64 < (digitsVal (d.takeWhile Char.isDigit) : Int) then
          .error ("Invalid offset [" ++ String.mk ("oldest".data ++ '+' :: d) ++ "]")
        else .ok ⟨true, OffsetOldest, (digitsVal (d.takeWhile Char.isDigit) : Int)⟩ := rfl
    rw [key, htake, if_neg hcond]
  · have key : parseOffset ('-' :: d) =
        if 0 < (d.takeWhile Char.isDigit).length ∧
            maxInt64 < (digitsVal (d.takeWhile Char.isDigit) : Int) then
          .error ("Invalid offset [" ++ String.mk ('-' :: d) ++ "]")
        else .ok ⟨true, OffsetNewest, -(digitsVal (d.takeWhile Char.isDigit) : Int)⟩ := rfl
    rw [key, htake, if_neg hcond]
  · have key : parseOffset ("newest".data ++ '-' :: d) =
        if 0 < (d.takeWhile Char.isDigit).length ∧
            maxInt64 < (digitsVal (d.takeWhile Char.isDigit) : Int) then
          .error ("Invalid offset [" ++ String.mk ("newest".data ++ '-' :: d) ++ "]")
        else .ok ⟨true, OffsetNewest, -(digitsVal (d.takeWhile Char.isDigit) : Int)⟩ := rfl
    rw [key, htake, if_neg hcond]

/-- C9 witness: `"+10"` and `"oldest+10"` parse alike, as do `"-10"` and
`"newest-10"`. -/
theorem parseOffset_bare_sign_equiv_witness :
    parseOffset "+10".data = .ok ⟨true, OffsetOldest, 10⟩ ∧
    parseOffset "oldest+10".data = .ok ⟨true, OffsetOldest, 10⟩ ∧
    parseOffset "-10".data = .ok ⟨true, OffsetNewest, -10⟩ ∧
    parseOffset "newest-10".data = .ok ⟨true, OffsetNewest, -10⟩ := by
  have h := parseOffset_bare_sign_equiv "10".data (by decide) (by decide)
  exact ⟨h.1, h.2.1, h.2.2.1, h.2.2.2⟩

theorem parsePartitionTok_ok (g1 : List Char)
    (h : g1 = "all".data ∨ g1 = [] ∨
      (g1.all Char.isDigit = true ∧ g1 ≠ [] ∧ (digitsVal g1 : Int) ≤ maxInt64)) :
    ∃ p, parsePartitionTok g1 = .ok p := by
  by_cases hif : g1 = "all".data ∨ g1 = []
  · exact ⟨-1, by simp only [parsePartitionTok, if_pos hif]⟩
  · rcases h with h | h | h
    · exact absurd (Or.inl h) hif
    · exact absurd (Or.inr h) hif
    · refine ⟨wrap32 (digitsVal g1), ?_⟩
      have ha : atoi g1 = .ok (digitsVal g1) := by
        simp only [atoi]
        rw [if_pos ⟨h.2.1, h.1, h.2.2⟩]
      simp only [parsePartitionTok, if_neg hif]
      rw [ha]

theorem parseOffsetTokOr_error (tok : List Char) (dflt : offset) (e : String)
    (h : parseOffset (trimSpace tok) = .error e) :
    parseOffsetTokOr tok dflt = dflt := by
  unfold parseOffsetTokOr
  split
  · rw [h]
  · rfl

theorem parseSegment_of_wf (seg : List Char) (h : segWellFormed seg = true) :
    ∃ p i, parseSegment seg = .ok (p, i) ∧
      (∀ e, parseOffset (trimSpace (matchSegment (trimSpace seg)).2.1) = .error e →
        i.start = defaultInterval.start) ∧
      (∀ e, parseOffset (trimSpace (matchSegment (trimSpace seg)).2.2.1) = .error e →
        i.«end» = defaultInterval.«end») := by
  simp only [segWellFormed, Bool.and_eq_true, Bool.or_eq_true, beq_iff_eq,
    bne_iff_ne, decide_eq_true_eq] at h
  obtain ⟨hrest, hg1⟩ := h
  obtain ⟨p, hp⟩ := parsePartitionTok_ok (matchSegment (trimSpace seg)).1 (by tauto)
  refine ⟨p,
    ⟨parseOffsetTokOr (matchSegment (trimSpace seg)).2.1 defaultInterval.start,
     parseOffsetTokOr (matchSegment (trimSpace seg)).2.2.1 defaultInterval.«end»⟩,
    ?_, ?_, ?_⟩
  · simp only [parseSegment]
    rw [if_neg (by simp [hrest]), hp]
  · intro e he
    have hs : parseOffsetTokOr (matchSegment (trimSpace seg)).2.1 defaultInterval.start
        = defaultInterval.start := parseOffsetTokOr_error _ _ e he
    exact hs
  · intro e he
    have hs : parseOffsetTokOr (matchSegment (trimSpace seg)).2.2.1 defaultInterval.«end»
        = defaultInterval.«end» := parseOffsetTokOr_error _ _ e he
    exact hs

/-- C6: a range specification all of whose segments have a unique regexp match
and a parseable partition token never makes `parseOffsets` fail, and inside
each such segment a start or end sub-token that `parseOffset` rejects silently
falls back to the default for that field (`oldest` start, unbounded end) while
the segment — and the rest of the specification — is still processed. -/
theorem parseOffsets_permissive (str : List Char) (hne : str ≠ [])
    (hwf : (splitOnComma str).all segWellFormed = true) :
    (∃ m, parseOffsets str = .ok m) ∧
    (∀ seg ∈ splitOnComma str, ∃ p i, parseSegment seg = .ok (p, i) ∧
      (∀ e, parseOffset (trimSpace (matchSegment (trimSpace seg)).2.1) = .error e →
        i.start = defaultInterval.start) ∧
      (∀ e, parseOffset (trimSpace (matchSegment (trimSpace seg)).2.2.1) = .error e →
        i.«end» = defaultInterval.«end»)) := by
  constructor
  · have aux : ∀ (segs : List (List Char)), segs.all segWellFormed = true →
        ∀ (acc : List (Int × interval)),
        ∃ m, (segs.foldlM
          (fun result partitionInfo =>
            match parseSegment partitionInfo with
            | .error e => .error e
            | .ok pi => .ok (mapUpdate result pi.1 pi.2)) acc
          : Except String (List (Int × interval))) = .ok m := by
      intro segs
      induction segs with
      | nil => exact fun _ acc => ⟨acc, rfl⟩
      | cons sg segs ih =>
        intro hall acc
        simp only [List.all_cons, Bool.and_eq_true] at hall
        obtain ⟨p, i, hpi, -, -⟩ := parseSegment_of_wf sg hall.1
        obtain ⟨m, hm⟩ := ih hall.2 (mapUpdate acc p i)
        refine ⟨m, ?_⟩
        rw [List.foldlM_cons, hpi]
        exact hm
    unfold parseOffsets
    rw [if_neg (by simp [hne])]
    exact aux (splitOnComma str) hwf []
  · exact fun seg hseg =>
      parseSegment_of_wf seg (List.all_eq_true.mp hwf seg hseg)

/-- C6 witness: in `"0=99999999999999999999:20"` the start token overflows
`int64` and is rejected by the offset parser, yet `parseOffsets` succeeds:
the start falls back to the default (oldest) and the end is parsed normally. -/
theorem parseOffsets_permissive_witness :
    ("0=99999999999999999999:20".data ≠ [] ∧
      (splitOnComma "0=99999999999999999999:20".data).all segWellFormed = true) ∧
    (∃ m, parseOffsets "0=99999999999999999999:20".data = .ok m) ∧
    parseOffsets "0=99999999999999999999:20".data =
      .ok [(0, ⟨defaultInterval.start, ⟨false, 20, 0⟩⟩)] :=
  ⟨⟨by decide, by decide⟩,
   (parseOffsets_permissive "0=99999999999999999999:20".data (by decide) (by decide)).1,
   by rfl⟩

end KtConsume
